import Mathlib

/-!
Verification of the redditbg acquisition pipeline.

The development shallowly embeds the components of the `redditbg` source:

* `src/fetcher/mod.rs` (with its `imgur.rs` and `reddit_gallery.rs` submodules):
  the resolver/fetcher engine (`Fetcher::fetch_one`, `Fetcher::fetch_multiple`,
  `Fetcher::fetch_toplevel`, `Fetcher::parse_raw_image`, gallery parsing);
* `src/reddit.rs`: the paginated listing stream (`Posts` and its `poll_next`
  state machine, `get_next_page` page parsing);
* `src/utils.rs`: the backoff policy (`BackoffPolicy::handle`, the
  `with_backoff` retry loop) and the persistent dedup ledger (`PersistentSet`);
* `src/picker.rs`: the `pick` pass over the image store.

Modelling conventions: network I/O is an oracle (`Env`) mapping a URL to the
classification outcomes of its fetched body; the concurrent
`buffer_unordered(25)` window is serialized (one in-flight resolution at a
time, results observed in submission order), which preserves the filter,
quota-check and touched-count structure of the source; `f64` aspect-ratio
arithmetic is modelled exactly over `ℚ`; the deferred `invalid_tx` channel
sends of the gallery submodules are modelled as direct insertions into the
invalid set (the channel is drained into that set at the end of every run);
recursion through galleries is made total with a fuel parameter, `none`
meaning the fuel ran out.
-/

namespace Redditbg

/-! ### The fetcher state (fields of `Fetcher` in `src/fetcher/mod.rs` plus the
on-disk image store it writes to).

`store` records, for each persisted image, the source url and the original
image dimensions that passed the aspect-ratio check. -/

structure FetchState where
  downloaded : List String
  invalid : List String
  gotten : Nat
  need : Nat
  store : List (String × Nat × Nat)
deriving Repr, DecidableEq

/-- What the body fetched from a URL can be classified as, in the priority
order `fetch_one` tries: a decodable raw image (with its dimensions), an imgur
gallery (`parse_imgur_gallery` succeeds, yielding member urls), a reddit
gallery (`parse_reddit_gallery` succeeds).  A field being `none` means that
classifier fails cleanly on this body. -/
structure Body where
  image : Option (Nat × Nat)
  imgur : Option (List String)
  reddit : Option (List String)
deriving Repr, DecidableEq

/-- The network/platform oracle: `body url = none` models a fetch whose
backoff budget was exhausted; `sw`/`sh` are the screen dimensions returned by
`platform::screen_size`. -/
structure Env where
  body : String → Option Body
  sw : Nat
  sh : Nat

/-- `ASPECT_RATIO_EPSILON` from `src/fetcher/mod.rs`. -/
def aspectRatioEpsilon : ℚ := 1 / 100

/-- The aspect-ratio acceptance test of `parse_raw_image`:
`(iw/ih - sw/sh).abs() <= ASPECT_RATIO_EPSILON` (the source bails on `>`). -/
def ratioOk (iw ih sw sh : Nat) : Prop :=
  |(iw : ℚ) / (ih : ℚ) - (sw : ℚ) / (sh : ℚ)| ≤ aspectRatioEpsilon

instance (iw ih sw sh : Nat) : Decidable (ratioOk iw ih sw sh) := by
  unfold ratioOk
  infer_instance

/-- `self.invalid.insert(url)`. -/
def markInvalid (url : String) (st : FetchState) : FetchState :=
  { st with invalid := url :: st.invalid }

/-- The tail of `parse_raw_image` after the checks pass: persist the resized
image into the store directory and bump `self.gotten`. -/
def acceptImage (url : String) (iw ih : Nat) (st : FetchState) : FetchState :=
  { st with store := (url, iw, ih) :: st.store, gotten := st.gotten + 1 }

/-- Error outcomes of `parse_raw_image`: either the body is not a decodable
image (`guess_format`/`load_from_memory` failure), or the decoded image fails
the aspect-ratio tolerance (`InvalidAspectRatio`). -/
inductive ImgError where
  | notAnImage
  | invalidAspectRatio (iw ih sw sh : Nat)
deriving Repr, DecidableEq

/-- `Fetcher::parse_raw_image` from `src/fetcher/mod.rs`: guess the format
(failing if the body is not an image), check the aspect ratio against the
screen, and on success persist and increment the accepted counter. -/
def parseRawImage (env : Env) (url : String) (b : Body) (st : FetchState) :
    Except ImgError FetchState :=
  match b.image with
  | none => .error .notAnImage
  | some (iw, ih) =>
    if ratioOk iw ih env.sw env.sh then .ok (acceptImage url iw ih st)
    else .error (.invalidAspectRatio iw ih env.sw env.sh)

/-- Shared tail of `parse_imgur_gallery` and `parse_reddit_gallery`: after the
recursive `fetch_multiple` over the `members.length` member urls returned the
result `r = (touched, state, dispatched)`, mark the gallery url invalid when
`touched >= url_amount`, and return `Ok`. -/
def galleryFinish (url : String) (memberCount : Nat)
    (r : Nat × FetchState × List String) : Bool × FetchState × List String :=
  (true, if memberCount ≤ r.1 then markInvalid url r.2.1 else r.2.1, r.2.2)

/-- The loop of `Fetcher::fetch_multiple` from `src/fetcher/mod.rs`,
serialized, parameterized by the `fetch_one` resolution function: pull urls
one at a time; every pulled url counts toward `touched` (the `inspect`
adapter); urls already in the `downloaded` or `invalid` set are filtered out
before `fetch_one` is invoked; after each completed `fetch_one` the shared
counter `gotten` is compared against `need` and the loop stops pulling when
`need <= gotten`.  Returns (touched, final state, urls dispatched to
`fetch_one`, recursive gallery dispatches included). -/
def fetchLoop
    (fetchOneF : String → FetchState → Option (Bool × FetchState × List String)) :
    List String → FetchState → Option (Nat × FetchState × List String)
  | [], st => some (0, st, [])
  | url :: rest, st =>
    if url ∈ st.downloaded ∨ url ∈ st.invalid then
      match fetchLoop fetchOneF rest st with
      | none => none
      | some (t, st', d) => some (t + 1, st', d)
    else
      match fetchOneF url st with
      | none => none
      | some (_, st₁, d₁) =>
        if st₁.need ≤ st₁.gotten then some (1, st₁, url :: d₁)
        else
          match fetchLoop fetchOneF rest st₁ with
          | none => none
          | some (t, st₂, d₂) => some (t + 1, st₂, url :: (d₁ ++ d₂))

/-- `Fetcher::fetch_one` from `src/fetcher/mod.rs`: fetch the body with
backoff (oracle `env.body`; `none` = terminal fetch failure), then classify in
priority order: raw image (an `InvalidAspectRatio` error is a hard reject that
skips the gallery classifiers), imgur gallery, reddit gallery, otherwise
unknown.  Every error outcome marks the url invalid.  The returned triple is
(success, new state, urls recursively dispatched to `fetch_one` by nested
`fetch_multiple` calls).  The fuel bounds the gallery recursion depth, which
is unbounded in the source (`async_recursion`). -/
def fetchOne (env : Env) : Nat → String → FetchState →
    Option (Bool × FetchState × List String)
  | 0, _, _ => none
  | fuel + 1, url, st =>
    match env.body url with
    | none => some (false, markInvalid url st, [])
    | some b =>
      match parseRawImage env url b st with
      | .ok st' => some (true, st', [])
      | .error (.invalidAspectRatio _ _ _ _) => some (false, markInvalid url st, [])
      | .error .notAnImage =>
        match b.imgur with
        | some members =>
          match fetchLoop (fetchOne env fuel) members st with
          | none => none
          | some r => some (galleryFinish url members.length r)
        | none =>
          match b.reddit with
          | some members =>
            match fetchLoop (fetchOne env fuel) members st with
            | none => none
            | some r => some (galleryFinish url members.length r)
          | none => some (false, markInvalid url st, [])

/-- `Fetcher::fetch_multiple` from `src/fetcher/mod.rs` is its loop run with
`fetch_one` at the given gallery-recursion depth. -/
def fetchMultiple (env : Env) (fuel : Nat) (urls : List String)
    (st : FetchState) : Option (Nat × FetchState × List String) :=
  fetchLoop (fetchOne env fuel) urls st

/-- `MAX_CACHED` from `src/fetcher/mod.rs`. -/
def maxCached : Nat := 25

/-- The quota computation in `Fetcher::new`:
`MAX_CACHED.saturating_sub(count_downloaded())` (`Nat` subtraction saturates). -/
def computeNeed (countDownloaded : Nat) : Nat := maxCached - countDownloaded

/-- The reconciliation loop at the end of `fetch_toplevel`: every file in the
images directory has its url decoded from the file name and inserted into the
`downloaded` set. -/
def reconcile (st : FetchState) : FetchState :=
  { st with downloaded := st.store.map (fun e => e.1) ++ st.downloaded }

/-- `Fetcher::fetch_toplevel` from `src/fetcher/mod.rs`: bail immediately when
`need == 0`, otherwise run `fetch_multiple` over the listing stream and then
reconcile the store directory into the `downloaded` set. -/
def fetchToplevel (env : Env) (fuel : Nat) (urls : List String)
    (st : FetchState) : Option (FetchState × List String) :=
  if st.need = 0 then some (st, [])
  else
    match fetchMultiple env fuel urls st with
    | none => none
    | some (_, st', d) => some (reconcile st', d)

/-- How a state may evolve across one engine operation: the `downloaded` set
is untouched, `need` is fixed for the run, the `invalid` set only grows, and
the store only gains images whose original dimensions passed the aspect-ratio
check, with `gotten` incremented once per newly persisted image. -/
def StateEvol (env : Env) (st st' : FetchState) : Prop :=
  st'.downloaded = st.downloaded ∧
  st'.need = st.need ∧
  (∀ u, u ∈ st.invalid → u ∈ st'.invalid) ∧
  ∃ pre, st'.store = pre ++ st.store ∧
    st'.gotten = st.gotten + pre.length ∧
    ∀ e ∈ pre, ratioOk e.2.1 e.2.2 env.sw env.sh

/-! ### The listing stream (`src/reddit.rs`). -/

/-- The JSON values the listing endpoint can return (the subset of
`serde_json::Value` shapes `get_next_page` inspects). -/
inductive Json where
  | null
  | bool (b : Bool)
  | str (s : String)
  | num (n : Int)
  | arr (elems : List Json)
  | obj (fields : List (String × Json))

/-- `serde_json::Value::get` with a string key: field lookup on objects,
`None` on everything else. -/
def Json.get : Json → String → Option Json
  | .obj fields, key => fields.lookup key
  | _, _ => none

/-- `serde_json::Value::as_str`. -/
def Json.asStr : Json → Option String
  | .str s => some s
  | _ => none

/-- `serde_json::Value::as_bool`. -/
def Json.asBool : Json → Option Bool
  | .bool b => some b
  | _ => none

/-- `serde_json::Value::as_array`. -/
def Json.asArr : Json → Option (List Json)
  | .arr elems => some elems
  | _ => none

/-- `Page` from `src/reddit.rs`. -/
structure Page where
  next_page_id : Option String
  posts : List String
deriving Repr, DecidableEq

/-- The response-parsing part of `Posts::get_next_page`: extract `data`, read
`data.after` as the next page token (absent or non-string, e.g. `null`, gives
`None`), require `data.children` to be an array, and keep the `url` of every
child whose `over_18` flag is `false` (NSFW posts are filtered out here, and
children missing any of the inspected fields are dropped by the
`filter_map`). -/
def parsePage (v : Json) : Except String Page :=
  match v.get "data" with
  | none => .error "Toplevel JSON did not have data"
  | some data =>
    match data.get "children" with
    | none => .error "Toplevel data did not contain children"
    | some children =>
      match children.asArr with
      | none => .error "Toplevel children were not an array"
      | some elems =>
        .ok { next_page_id := (data.get "after").bind Json.asStr
              posts := elems.filterMap fun child =>
                (child.get "data").bind fun cdata =>
                  (cdata.get "over_18").bind fun flag =>
                    flag.asBool.bind fun nsfw =>
                      if nsfw then none else (cdata.get "url").bind Json.asStr }

/-- `PostsState` from `src/reddit.rs`.  The `Fetching` state's pending future
is represented by the page token it captured from `next_page_id` when it was
created; the oracle resolves it when polled. -/
inductive PostsState where
  | needMore
  | fetching (token : Option String)
  | fetched (posts : List String)
  | exhausted
deriving Repr, DecidableEq

/-- The `Posts` stream state from `src/reddit.rs` (the logger, client and
subreddit list are irrelevant to the transition structure). -/
structure Posts where
  next_page_id : Option String
  state : PostsState
deriving Repr, DecidableEq

/-- `Posts::new`. -/
def Posts.new : Posts := { next_page_id := none, state := .needMore }

/-- One iteration of the state-machine loop in `poll_next` from
`src/reddit.rs`.  `getPage` is the network oracle resolving the
`get_next_page` future created in `NeedMore` (its argument is the captured
page token).  `.inl` continues the loop with the new state; `.inr` is a
`Poll::Ready` return.  Note `posts.pop()` takes from the back of the buffer,
and that a drained buffer moves to `NeedMore` only when a next-page token was
carried forward, to `Exhausted` otherwise. -/
def stepOnce (getPage : Option String → Except String Page) (p : Posts) :
    Posts ⊕ (Option String × Posts) :=
  match p.state with
  | .needMore => .inl { p with state := .fetching p.next_page_id }
  | .fetching token =>
    match getPage token with
    | .ok page => .inl { next_page_id := page.next_page_id, state := .fetched page.posts }
    | .error _ => .inl { p with state := .exhausted }
  | .fetched posts =>
    match posts.getLast? with
    | some post => .inr (some post, { p with state := .fetched posts.dropLast })
    | none =>
      if p.next_page_id.isSome then .inl { p with state := .needMore }
      else .inl { p with state := .exhausted }
  | .exhausted => .inr (none, p)

/-- `poll_next` from `src/reddit.rs`: run the state-machine loop until it
returns an item (`some url`) or end-of-stream (`none`).  The source loop has
no bound; fuel makes it total, `none` meaning the loop budget ran out. -/
def pollNext (getPage : Option String → Except String Page) :
    Nat → Posts → Option (Option String × Posts)
  | 0, _ => none
  | fuel + 1, p =>
    match stepOnce getPage p with
    | .inl p' => pollNext getPage fuel p'
    | .inr out => some out

/-- The terminal listing page of the C4 scenario:
`{data: {children: [{data: {url: "http://x/a.png", over_18: false}}], after: null}}`. -/
def scenarioListing : Json :=
  .obj [("data", .obj
    [("children", .arr
      [.obj [("data", .obj [("url", .str "http://x/a.png"), ("over_18", .bool false)])]]),
     ("after", .null)])]

/-- The oracle for the C4 scenario: every page request returns
`scenarioListing`, parsed exactly as `get_next_page` parses it. -/
def scenarioGetPage : Option String → Except String Page :=
  fun _ => parsePage scenarioListing

/-! ### The backoff policy (`src/utils.rs`). -/

/-- `futures_retry::RetryPolicy` (durations abstracted to `Nat`). -/
inductive RetryPolicy (E : Type) where
  | waitRetry (duration : Nat)
  | forwardError (err : E)
deriving Repr, DecidableEq

/-- `BackoffPolicy::handle` from `src/utils.rs`: the wrapped
`exponential_backoff::Iter` is modelled as the list of wait durations it has
left to yield; `handle` pops the next duration and retries, or, with the
schedule exhausted, forwards the triggering error verbatim.  The attempt
index and the error are never inspected. -/
def BackoffPolicy.handle {E : Type} (schedule : List Nat) (attempt : Nat)
    (err : E) : RetryPolicy E × List Nat :=
  match schedule, attempt with
  | duration :: rest, _ => (.waitRetry duration, rest)
  | [], _ => (.forwardError err, [])

/-- Whether a `RetryPolicy` retries. -/
def RetryPolicy.isRetry {E : Type} : RetryPolicy E → Bool
  | .waitRetry _ => true
  | .forwardError _ => false

/-- The retry count the `with_backoff` macro configures:
`Backoff::new(10, 1s, 15s)` with factor 2 and jitter 0.3.  The individual
jittered durations are produced inside the `exponential_backoff` crate and
are abstracted; only the number of steps is observable in the source. -/
def backoffSteps : Nat := 10

/-- The `FutureRetry` driving loop of the `with_backoff` macro from
`src/utils.rs`: run the `attempt`-th try of the operation; on success return
its value; on failure consult `BackoffPolicy::handle` and either retry after
the wait or forward the error.  `attempts n` is the outcome of the `n`-th try
of the wrapped operation (tries are numbered from 0); fuel makes the loop
total. -/
def withBackoffAux {E A : Type} (attempts : Nat → Except E A) :
    Nat → List Nat → Nat → Option (Except E A)
  | 0, _, _ => none
  | fuel + 1, schedule, attempt =>
    match attempts attempt with
    | .ok a => some (.ok a)
    | .error e =>
      match BackoffPolicy.handle schedule attempt e with
      | (.forwardError err, _) => some (.error err)
      | (.waitRetry _, rest) => withBackoffAux attempts fuel rest (attempt + 1)

/-- `with_backoff` from `src/utils.rs`, run with a given wait schedule.  A
fuel of `schedule.length + 1` always suffices: one try per schedule entry
plus the final forwarding try. -/
def withBackoff {E A : Type} (attempts : Nat → Except E A)
    (schedule : List Nat) : Option (Except E A) :=
  withBackoffAux attempts (schedule.length + 1) schedule 0

/-! ### The persistent dedup ledger (`src/utils.rs`). -/

/-- `Vec::join("\n")`: the entries separated by single newlines, no trailing
newline. -/
def joinLines : List String → String
  | [] => ""
  | [s] => s
  | s :: rest => s ++ "\n" ++ joinLines rest

/-- The serialization in `PersistentSet::store`:
`contents.into_iter().collect::<Vec<_>>().join("\n")` (the file bytes written
after truncation).  The set's contents are modelled as the list in which the
`HashSet` iterates them. -/
def persistentStore (contents : List String) : String :=
  joinLines contents

/-- The `read_line` loop of `PersistentSet::load`: `acc` holds the (reversed)
characters of the line being read.  At end of file, a final read of zero
bytes breaks the loop, so a pending non-empty line is kept but no empty entry
is produced; a `'\n'` terminates the current line, and the final newline is
stripped before the line is inserted. -/
def readLinesAux : List Char → List Char → List String
  | acc, [] => if acc.isEmpty then [] else [String.mk acc.reverse]
  | acc, c :: rest =>
    if c = '\n' then String.mk acc.reverse :: readLinesAux [] rest
    else readLinesAux (c :: acc) rest

/-- `PersistentSet::load` from `src/utils.rs`, applied to the bytes of an
existing ledger file: read lines one at a time, strip the trailing newline of
each, and collect the entries (in file order; the `HashSet` insert is
order-insensitive). -/
def persistentLoad (file : String) : List String :=
  readLinesAux [] file.data

/-! ### The picker (`src/picker.rs`). -/

/-- One file of the image store directory as `pick` sees it: its path and the
result of decoding it (`some hash` gives the perceptual hash of the decoded
image, `none` is a decode failure). -/
structure StoreFile where
  path : String
  decoded : Option Nat
deriving Repr, DecidableEq

/-- The `find_map` pass of `pick` from `src/picker.rs` followed by the final
removal.  `applied` is the set of perceptual hashes in the `AppliedImages`
table.  Result: (the picked path and hash, the store files left on disk, the
paths removed from disk, the final `AppliedImages` contents).  A file that
fails to decode is removed and the scan continues; a file whose hash is
already applied is removed and the scan continues; the first remaining file
is recorded in `AppliedImages`, returned, and its original file removed;
files after it are never examined. -/
def pickAux (applied : List Nat) :
    List StoreFile → Option (String × Nat) × List StoreFile × List String × List Nat
  | [] => (none, [], [], applied)
  | f :: rest =>
    match f.decoded with
    | none =>
      match pickAux applied rest with
      | (res, kept, removed, applied') => (res, kept, f.path :: removed, applied')
    | some h =>
      if h ∈ applied then
        match pickAux applied rest with
        | (res, kept, removed, applied') => (res, kept, f.path :: removed, applied')
      else
        (some (f.path, h), rest, [f.path], h :: applied)

/-- `pick` from `src/picker.rs` over a store directory listing. -/
def pick (applied : List Nat) (files : List StoreFile) :
    Option (String × Nat) × List StoreFile × List String × List Nat :=
  pickAux applied files

/-! ### Concrete instances used to exercise the theorems. -/

/-- A body that decodes as a 1000x10 image (grossly off a 16:9 screen) and
would also parse as both gallery kinds, to exercise the hard-reject path. -/
def bodyBad : Body :=
  { image := some (1000, 10), imgur := some ["m1"], reddit := some ["m1"] }

/-- A small concrete network: a gallery `gal` with the single member `m1`
(whose fetch fails terminally), a good 1600x900 image `img`, the bad-ratio
body `bad`, and an unclassifiable `junk`; everything else fails to fetch. -/
def envW : Env :=
  { body := fun u =>
      if u = "gal" then some { image := none, imgur := some ["m1"], reddit := none }
      else if u = "rgal" then some { image := none, imgur := none, reddit := some ["m1"] }
      else if u = "img" then some { image := some (1600, 900), imgur := none, reddit := none }
      else if u = "bad" then some bodyBad
      else if u = "junk" then some { image := none, imgur := none, reddit := none }
      else none
    sw := 16
    sh := 9 }

/-- A starting state whose ledger already contains the downloaded `dl` and the
invalid `inv`, with quota 5. -/
def stW : FetchState :=
  { downloaded := ["dl"], invalid := ["inv"], gotten := 0, need := 5, store := [] }

/-- `stW` after the member `m1` has been marked invalid. -/
def stM1 : FetchState :=
  { downloaded := ["dl"], invalid := ["m1", "inv"], gotten := 0, need := 5, store := [] }

/-- A state whose quota is already satisfied (`need = 0`). -/
def stZ : FetchState :=
  { downloaded := ["dl"], invalid := [], gotten := 0, need := 0, store := [] }

end Redditbg

namespace Redditbg

/-! ### State-evolution lemmas for the fetch engine. -/

theorem stateEvol_refl (env : Env) (st : FetchState) : StateEvol env st st :=
  ⟨rfl, rfl, fun _ h => h, [], rfl, rfl, by simp⟩

theorem stateEvol_trans {env : Env} {s1 s2 s3 : FetchState}
    (h12 : StateEvol env s1 s2) (h23 : StateEvol env s2 s3) :
    StateEvol env s1 s3 := by
  obtain ⟨hd12, hn12, hi12, pre12, hs12, hg12, hr12⟩ := h12
  obtain ⟨hd23, hn23, hi23, pre23, hs23, hg23, hr23⟩ := h23
  refine ⟨hd23.trans hd12, hn23.trans hn12, fun u hu => hi23 u (hi12 u hu),
    pre23 ++ pre12, ?_, ?_, ?_⟩
  · rw [hs23, hs12, List.append_assoc]
  · rw [hg23, hg12]
    simp only [List.length_append]
    omega
  · intro e he
    rcases List.mem_append.mp he with h | h
    · exact hr23 e h
    · exact hr12 e h

theorem stateEvol_markInvalid (env : Env) (url : String) (st : FetchState) :
    StateEvol env st (markInvalid url st) :=
  ⟨rfl, rfl, fun u hu => List.mem_cons_of_mem _ hu, [], rfl, rfl, by simp⟩

theorem stateEvol_acceptImage (env : Env) (url : String) (iw ih : Nat)
    (st : FetchState) (h : ratioOk iw ih env.sw env.sh) :
    StateEvol env st (acceptImage url iw ih st) :=
  ⟨rfl, rfl, fun _ hu => hu, [(url, iw, ih)], rfl, rfl, by simpa using h⟩

theorem parseRawImage_evol {env : Env} {url : String} {b : Body}
    {st st' : FetchState} (h : parseRawImage env url b st = .ok st') :
    StateEvol env st st' := by
  cases hb : b.image with
  | none => simp [parseRawImage, hb] at h
  | some wh =>
    obtain ⟨iw, ih⟩ := wh
    simp only [parseRawImage, hb] at h
    split at h
    · injection h with h'
      subst h'
      exact stateEvol_acceptImage env url iw ih st (by assumption)
    · exact absurd h (by simp)

theorem galleryFinish_evol {env : Env} {url : String} {n : Nat}
    {st : FetchState} {r : Nat × FetchState × List String}
    (h : StateEvol env st r.2.1) :
    StateEvol env st (galleryFinish url n r).2.1 := by
  unfold galleryFinish
  split
  · exact stateEvol_trans h (stateEvol_markInvalid env url r.2.1)
  · exact h

/-- Every successful `fetch_one` resolution evolves the state monotonically,
provided the resolver passed to the loop does. -/
theorem fetchLoop_evol {env : Env}
    {f : String → FetchState → Option (Bool × FetchState × List String)}
    (hf : ∀ url st r, f url st = some r → StateEvol env st r.2.1) :
    ∀ urls st r, fetchLoop f urls st = some r → StateEvol env st r.2.1 := by
  intro urls
  induction urls with
  | nil =>
    intro st r h
    simp only [fetchLoop, Option.some.injEq] at h
    rw [← h]
    exact stateEvol_refl env st
  | cons url rest ih =>
    intro st r h
    simp only [fetchLoop] at h
    split at h
    · cases hm : fetchLoop f rest st with
      | none => rw [hm] at h; exact absurd h (by simp)
      | some r' =>
        obtain ⟨t, st', d⟩ := r'
        rw [hm] at h
        simp only [Option.some.injEq] at h
        rw [← h]
        exact ih st (t, st', d) hm
    · cases hm : f url st with
      | none => rw [hm] at h; exact absurd h (by simp)
      | some r₁ =>
        obtain ⟨ok, st₁, d₁⟩ := r₁
        rw [hm] at h
        simp only at h
        split at h
        · simp only [Option.some.injEq] at h
          rw [← h]
          exact hf url st (ok, st₁, d₁) hm
        · cases hm₂ : fetchLoop f rest st₁ with
          | none => rw [hm₂] at h; exact absurd h (by simp)
          | some r₂ =>
            obtain ⟨t, st₂, d₂⟩ := r₂
            rw [hm₂] at h
            simp only [Option.some.injEq] at h
            rw [← h]
            exact stateEvol_trans (hf url st (ok, st₁, d₁) hm)
              (ih st₁ (t, st₂, d₂) hm₂)

theorem fetchOne_evol (env : Env) :
    ∀ fuel url st r, fetchOne env fuel url st = some r →
      StateEvol env st r.2.1 := by
  intro fuel
  induction fuel with
  | zero => intro url st r h; exact absurd h (by simp [fetchOne])
  | succ fuel ih =>
    intro url st r h
    simp only [fetchOne] at h
    cases hb : env.body url with
    | none =>
      simp only [hb, Option.some.injEq] at h
      rw [← h]
      exact stateEvol_markInvalid env url st
    | some b =>
      simp only [hb] at h
      cases hp : parseRawImage env url b st with
      | ok st' =>
        simp only [hp, Option.some.injEq] at h
        rw [← h]
        exact parseRawImage_evol hp
      | error e =>
        cases e with
        | invalidAspectRatio iw ih' sw sh =>
          simp only [hp, Option.some.injEq] at h
          rw [← h]
          exact stateEvol_markInvalid env url st
        | notAnImage =>
          simp only [hp] at h
          cases hg : b.imgur with
          | some members =>
            simp only [hg] at h
            cases hm : fetchLoop (fetchOne env fuel) members st with
            | none => simp [hm] at h
            | some r' =>
              simp only [hm, Option.some.injEq] at h
              rw [← h]
              exact galleryFinish_evol (fetchLoop_evol (fun u s r₀ => ih u s r₀) members st r' hm)
          | none =>
            simp only [hg] at h
            cases hrd : b.reddit with
            | some members =>
              simp only [hrd] at h
              cases hm : fetchLoop (fetchOne env fuel) members st with
              | none => simp [hm] at h
              | some r' =>
                simp only [hm, Option.some.injEq] at h
                rw [← h]
                exact galleryFinish_evol (fetchLoop_evol (fun u s r₀ => ih u s r₀) members st r' hm)
            | none =>
              simp only [hrd, Option.some.injEq] at h
              rw [← h]
              exact stateEvol_markInvalid env url st

theorem fetchMultiple_evol {env : Env} {fuel : Nat} {urls : List String}
    {st : FetchState} {r : Nat × FetchState × List String}
    (h : fetchMultiple env fuel urls st = some r) : StateEvol env st r.2.1 :=
  fetchLoop_evol (fun u s r₀ => fetchOne_evol env fuel u s r₀) urls st r h

end Redditbg

namespace Redditbg

theorem parseRawImage_ok {env : Env} {url : String} {b : Body}
    {st st' : FetchState} (h : parseRawImage env url b st = .ok st') :
    ∃ iw ih, b.image = some (iw, ih) ∧ ratioOk iw ih env.sw env.sh ∧
      st' = acceptImage url iw ih st := by
  cases hb : b.image with
  | none => simp [parseRawImage, hb] at h
  | some wh =>
    obtain ⟨iw, ih⟩ := wh
    simp only [parseRawImage, hb] at h
    split at h
    · injection h with h'
      exact ⟨iw, ih, rfl, by assumption, h'.symm⟩
    · exact absurd h (by simp)

theorem galleryFinish_gotten (url : String) (n : Nat)
    (r : Nat × FetchState × List String) :
    (galleryFinish url n r).2.1.gotten = r.2.1.gotten := by
  unfold galleryFinish
  split <;> rfl

theorem galleryFinish_dispatched (url : String) (n : Nat)
    (r : Nat × FetchState × List String) :
    (galleryFinish url n r).2.2 = r.2.2 := by
  unfold galleryFinish
  split <;> rfl

/-! ### Quota lemmas. -/

theorem fetchLoop_quota {env : Env}
    {f : String → FetchState → Option (Bool × FetchState × List String)}
    (hevol : ∀ url st r, f url st = some r → StateEvol env st r.2.1)
    (hf : ∀ url st r, f url st = some r → st.gotten < st.need →
      r.2.1.gotten ≤ st.need) :
    ∀ urls st r, fetchLoop f urls st = some r → st.gotten < st.need →
      r.2.1.gotten ≤ st.need := by
  intro urls
  induction urls with
  | nil =>
    intro st r h hq
    simp only [fetchLoop, Option.some.injEq] at h
    rw [← h]
    exact Nat.le_of_lt hq
  | cons url rest ih =>
    intro st r h hq
    simp only [fetchLoop] at h
    split at h
    · cases hm : fetchLoop f rest st with
      | none => simp [hm] at h
      | some r' =>
        simp only [hm, Option.some.injEq] at h
        rw [← h]
        exact ih st r' hm hq
    · cases hm : f url st with
      | none => simp [hm] at h
      | some r₁ =>
        obtain ⟨ok, st₁, d₁⟩ := r₁
        simp only [hm] at h
        split at h
        · simp only [Option.some.injEq] at h
          rw [← h]
          exact hf url st (ok, st₁, d₁) hm hq
        · cases hm₂ : fetchLoop f rest st₁ with
          | none => simp [hm₂] at h
          | some r₂ =>
            simp only [hm₂, Option.some.injEq] at h
            rw [← h]
            have hne : st₁.need = st.need := (hevol url st (ok, st₁, d₁) hm).2.1
            have hlt : st₁.gotten < st₁.need := by omega
            have := ih st₁ r₂ hm₂ hlt
            simpa [hne] using this

theorem fetchOne_quota (env : Env) :
    ∀ fuel url st r, fetchOne env fuel url st = some r →
      st.gotten < st.need → r.2.1.gotten ≤ st.need := by
  intro fuel
  induction fuel with
  | zero => intro url st r h _; exact absurd h (by simp [fetchOne])
  | succ fuel ih =>
    intro url st r h hq
    simp only [fetchOne] at h
    cases hb : env.body url with
    | none =>
      simp only [hb, Option.some.injEq] at h
      rw [← h]
      simp only [markInvalid]
      omega
    | some b =>
      simp only [hb] at h
      cases hp : parseRawImage env url b st with
      | ok st' =>
        simp only [hp, Option.some.injEq] at h
        rw [← h]
        obtain ⟨iw, ih', _, _, hst⟩ := parseRawImage_ok hp
        rw [hst]
        simp only [acceptImage]
        omega
      | error e =>
        cases e with
        | invalidAspectRatio iw ih' sw sh =>
          simp only [hp, Option.some.injEq] at h
          rw [← h]
          simp only [markInvalid]
          omega
        | notAnImage =>
          simp only [hp] at h
          cases hg : b.imgur with
          | some members =>
            simp only [hg] at h
            cases hm : fetchLoop (fetchOne env fuel) members st with
            | none => simp [hm] at h
            | some r' =>
              simp only [hm, Option.some.injEq] at h
              rw [← h]
              simp only [galleryFinish_gotten]
              exact fetchLoop_quota (fun u s r₀ => fetchOne_evol env fuel u s r₀)
                (fun u s r₀ => ih u s r₀) members st r' hm hq
          | none =>
            simp only [hg] at h
            cases hrd : b.reddit with
            | some members =>
              simp only [hrd] at h
              cases hm : fetchLoop (fetchOne env fuel) members st with
              | none => simp [hm] at h
              | some r' =>
                simp only [hm, Option.some.injEq] at h
                rw [← h]
                simp only [galleryFinish_gotten]
                exact fetchLoop_quota (fun u s r₀ => fetchOne_evol env fuel u s r₀)
                  (fun u s r₀ => ih u s r₀) members st r' hm hq
            | none =>
              simp only [hrd, Option.some.injEq] at h
              rw [← h]
              simp only [markInvalid]
              omega

/-! ### Dispatch-filtering lemmas. -/

theorem fetchLoop_dispatch {env : Env}
    {f : String → FetchState → Option (Bool × FetchState × List String)}
    (hevol : ∀ url st r, f url st = some r → StateEvol env st r.2.1)
    (hf : ∀ u url st r, f url st = some r →
      (u ∈ st.downloaded ∨ u ∈ st.invalid) → u ∉ r.2.2) :
    ∀ urls st r u, fetchLoop f urls st = some r →
      (u ∈ st.downloaded ∨ u ∈ st.invalid) → u ∉ r.2.2 := by
  intro urls
  induction urls with
  | nil =>
    intro st r u h hu
    simp only [fetchLoop, Option.some.injEq] at h
    rw [← h]
    simp
  | cons url rest ih =>
    intro st r u h hu
    simp only [fetchLoop] at h
    split at h
    · cases hm : fetchLoop f rest st with
      | none => simp [hm] at h
      | some r' =>
        simp only [hm, Option.some.injEq] at h
        rw [← h]
        exact ih st r' u hm hu
    · rename_i hfil
      have hne : u ≠ url := fun he => hfil (he ▸ hu)
      cases hm : f url st with
      | none => simp [hm] at h
      | some r₁ =>
        obtain ⟨ok, st₁, d₁⟩ := r₁
        simp only [hm] at h
        split at h
        · simp only [Option.some.injEq] at h
          rw [← h]
          simp only [List.mem_cons, not_or]
          exact ⟨hne, hf u url st (ok, st₁, d₁) hm hu⟩
        · cases hm₂ : fetchLoop f rest st₁ with
          | none => simp [hm₂] at h
          | some r₂ =>
            simp only [hm₂, Option.some.injEq] at h
            rw [← h]
            have hev := hevol url st (ok, st₁, d₁) hm
            have hu₁ : u ∈ st₁.downloaded ∨ u ∈ st₁.invalid := by
              rcases hu with hd | hi
              · exact Or.inl (hev.1 ▸ hd)
              · exact Or.inr (hev.2.2.1 u hi)
            simp only [List.mem_cons, List.mem_append, not_or]
            exact ⟨hne, hf u url st (ok, st₁, d₁) hm hu, ih st₁ r₂ u hm₂ hu₁⟩

theorem fetchOne_dispatch (env : Env) :
    ∀ fuel u url st r, fetchOne env fuel url st = some r →
      (u ∈ st.downloaded ∨ u ∈ st.invalid) → u ∉ r.2.2 := by
  intro fuel
  induction fuel with
  | zero => intro u url st r h _; exact absurd h (by simp [fetchOne])
  | succ fuel ih =>
    intro u url st r h hu
    simp only [fetchOne] at h
    cases hb : env.body url with
    | none =>
      simp only [hb, Option.some.injEq] at h
      rw [← h]
      simp
    | some b =>
      simp only [hb] at h
      cases hp : parseRawImage env url b st with
      | ok st' =>
        simp only [hp, Option.some.injEq] at h
        rw [← h]
        simp
      | error e =>
        cases e with
        | invalidAspectRatio iw ih' sw sh =>
          simp only [hp, Option.some.injEq] at h
          rw [← h]
          simp
        | notAnImage =>
          simp only [hp] at h
          cases hg : b.imgur with
          | some members =>
            simp only [hg] at h
            cases hm : fetchLoop (fetchOne env fuel) members st with
            | none => simp [hm] at h
            | some r' =>
              simp only [hm, Option.some.injEq] at h
              rw [← h]
              rw [galleryFinish_dispatched]
              exact fetchLoop_dispatch (fun u' s r₀ => fetchOne_evol env fuel u' s r₀)
                (fun u' url' s r₀ => ih u' url' s r₀) members st r' u hm hu
          | none =>
            simp only [hg] at h
            cases hrd : b.reddit with
            | some members =>
              simp only [hrd] at h
              cases hm : fetchLoop (fetchOne env fuel) members st with
              | none => simp [hm] at h
              | some r' =>
                simp only [hm, Option.some.injEq] at h
                rw [← h]
                rw [galleryFinish_dispatched]
                exact fetchLoop_dispatch (fun u' s r₀ => fetchOne_evol env fuel u' s r₀)
                  (fun u' url' s r₀ => ih u' url' s r₀) members st r' u hm hu
            | none =>
              simp only [hrd, Option.some.injEq] at h
              rw [← h]
              simp

/-! ### Touched-count lemmas. -/

theorem fetchLoop_touched_le
    {f : String → FetchState → Option (Bool × FetchState × List String)} :
    ∀ urls st r, fetchLoop f urls st = some r → r.1 ≤ urls.length := by
  intro urls
  induction urls with
  | nil =>
    intro st r h
    simp only [fetchLoop, Option.some.injEq] at h
    rw [← h]
    simp
  | cons url rest ih =>
    intro st r h
    simp only [fetchLoop] at h
    split at h
    · cases hm : fetchLoop f rest st with
      | none => simp [hm] at h
      | some r' =>
        simp only [hm, Option.some.injEq] at h
        rw [← h]
        have := ih st r' hm
        simp only [List.length_cons]
        omega
    · cases hm : f url st with
      | none => simp [hm] at h
      | some r₁ =>
        obtain ⟨ok, st₁, d₁⟩ := r₁
        simp only [hm] at h
        split at h
        · simp only [Option.some.injEq] at h
          rw [← h]
          simp
        · cases hm₂ : fetchLoop f rest st₁ with
          | none => simp [hm₂] at h
          | some r₂ =>
            simp only [hm₂, Option.some.injEq] at h
            rw [← h]
            have := ih st₁ r₂ hm₂
            simp only [List.length_cons]
            omega

theorem fetchLoop_all_filtered
    {f : String → FetchState → Option (Bool × FetchState × List String)} :
    ∀ urls st r, fetchLoop f urls st = some r →
      (∀ u ∈ urls, u ∈ st.downloaded ∨ u ∈ st.invalid) →
      r = (urls.length, st, []) := by
  intro urls
  induction urls with
  | nil =>
    intro st r h _
    simp only [fetchLoop, Option.some.injEq] at h
    rw [← h]
    rfl
  | cons url rest ih =>
    intro st r h hall
    simp only [fetchLoop] at h
    split at h
    · cases hm : fetchLoop f rest st with
      | none => simp [hm] at h
      | some r' =>
        simp only [hm, Option.some.injEq] at h
        rw [← h]
        have := ih st r' hm (fun u hu => hall u (List.mem_cons_of_mem url hu))
        rw [this]
        rfl
    · rename_i hfil
      exact absurd (hall url (List.mem_cons_self url rest)) hfil

end Redditbg

namespace Redditbg

theorem reconcile_gotten (st : FetchState) : (reconcile st).gotten = st.gotten :=
  rfl

/-- C1: for every reference already recorded in the dedup ledger under either
status (`downloaded` or `invalid`), `fetch_multiple` filters it out before
`fetch_one` is ever invoked on it — it never appears among the dispatched
urls, neither in the top-level run (`fetch_toplevel`) nor in any recursive
gallery expansion (whose dispatches are part of the returned dispatch
trace). -/
theorem ledgered_reference_never_dispatched (env : Env) (fuel : Nat)
    (u : String) (st : FetchState)
    (hu : u ∈ st.downloaded ∨ u ∈ st.invalid) :
    (∀ urls r, fetchMultiple env fuel urls st = some r → u ∉ r.2.2) ∧
    (∀ urls r, fetchToplevel env fuel urls st = some r → u ∉ r.2) := by
  constructor
  · intro urls r h
    exact fetchLoop_dispatch (fetchOne_evol env fuel) (fetchOne_dispatch env fuel)
      urls st r u h hu
  · intro urls r h
    unfold fetchToplevel at h
    split at h
    · simp only [Option.some.injEq] at h
      rw [← h]
      simp
    · cases hm : fetchMultiple env fuel urls st with
      | none => simp [hm] at h
      | some r' =>
        simp only [hm, Option.some.injEq] at h
        rw [← h]
        exact fetchLoop_dispatch (fetchOne_evol env fuel) (fetchOne_dispatch env fuel)
          urls st r' u hm hu

theorem ledgered_reference_never_dispatched_witness :
    "dl" ∉ (["gal", "m1"] : List String) :=
  (ledgered_reference_never_dispatched envW 3 "dl" stW (Or.inl (by decide))).1
    ["dl", "gal"]
    (2, { downloaded := ["dl"], invalid := ["gal", "m1", "inv"], gotten := 0,
          need := 5, store := [] }, ["gal", "m1"])
    (by decide)

/-- C2: with the per-run quota `need = N` and the accepted counter starting
at zero, the run never ends with more than `N` newly accepted images
(first conjunct); and as soon as a completed resolution leaves the counter at
or above `need`, `fetch_multiple` returns immediately without pulling any
further reference from the stream (second conjunct: the rest of the stream is
untouched and unexamined). -/
theorem quota_respected :
    (∀ env fuel urls st r, st.gotten = 0 →
      fetchToplevel env fuel urls st = some r → r.1.gotten ≤ st.need) ∧
    (∀ env fuel url rest st ok st₁ d₁,
      ¬(url ∈ st.downloaded ∨ url ∈ st.invalid) →
      fetchOne env fuel url st = some (ok, st₁, d₁) →
      st₁.need ≤ st₁.gotten →
      fetchMultiple env fuel (url :: rest) st = some (1, st₁, url :: d₁)) := by
  constructor
  · intro env fuel urls st r hg0 h
    unfold fetchToplevel at h
    split at h
    · rename_i hneed
      simp only [Option.some.injEq] at h
      rw [← h, hg0, hneed]
    · rename_i hneed
      cases hm : fetchMultiple env fuel urls st with
      | none => simp [hm] at h
      | some r' =>
        simp only [hm, Option.some.injEq] at h
        rw [← h]
        rw [reconcile_gotten]
        exact fetchLoop_quota (fetchOne_evol env fuel) (fetchOne_quota env fuel)
          urls st r' hm (by omega)
  · intro env fuel url rest st ok st₁ d₁ hfil hone hsat
    unfold fetchMultiple fetchLoop
    rw [if_neg hfil, hone]
    simp only [if_pos hsat]

theorem quota_respected_witness :
    ({ downloaded := ["dl"], invalid := ["junk", "inv"], gotten := 0, need := 5,
       store := [] } : FetchState).gotten ≤ stW.need ∧
    fetchMultiple envW 1 ["junk", "x"] stZ =
      some (1, { downloaded := ["dl"], invalid := ["junk"], gotten := 0,
                 need := 0, store := [] }, ["junk"]) :=
  ⟨quota_respected.1 envW 1 ["junk"] stW
      ({ downloaded := ["dl"], invalid := ["junk", "inv"], gotten := 0,
         need := 5, store := [] }, ["junk"]) rfl (by decide),
   quota_respected.2 envW 1 "junk" ["x"] stZ false
      { downloaded := ["dl"], invalid := ["junk"], gotten := 0, need := 0,
        store := [] } [] (by decide) (by decide) (by decide)⟩

/-- C3: for a gallery of total membership `M = members.length`, after the
recursive `fetch_multiple` over its members returns a touched count `t`:
`t` never exceeds `M`; if `t = M` the gallery's own reference is marked
invalid; if `t < M` the gallery reference is left unmarked (the resulting
state is exactly the one the member pass produced); and touched counts every
member offered, including members filtered out as already in the ledger (a
gallery all of whose members are already ledgered still counts `t = M`, with
the state unchanged). -/
theorem gallery_exhaustion (env : Env) (fuel : Nat) (g : String) (b : Body)
    (st stm st' : FetchState) (members dm d : List String) (t : Nat) (ok : Bool)
    (hb : env.body g = some b) (himg : b.image = none)
    (hgal : b.imgur = some members ∨ (b.imgur = none ∧ b.reddit = some members))
    (hmem : fetchMultiple env fuel members st = some (t, stm, dm))
    (hone : fetchOne env (fuel + 1) g st = some (ok, st', d)) :
    t ≤ members.length ∧
    (t = members.length → st' = markInvalid g stm ∧ g ∈ st'.invalid) ∧
    (t < members.length → st' = stm) ∧
    ((∀ u ∈ members, u ∈ st.downloaded ∨ u ∈ st.invalid) →
      t = members.length ∧ stm = st) := by
  have hp : parseRawImage env g b st = .error .notAnImage := by
    simp [parseRawImage, himg]
  have hmem' : fetchLoop (fetchOne env fuel) members st = some (t, stm, dm) := hmem
  have hfin : st' = (galleryFinish g members.length (t, stm, dm)).2.1 := by
    rcases hgal with hgi | ⟨hgi, hgr⟩
    · simp only [fetchOne, hb, hp, hgi, hmem', Option.some.injEq] at hone
      rw [hone]
    · simp only [fetchOne, hb, hp, hgi, hgr, hmem', Option.some.injEq] at hone
      rw [hone]
  refine ⟨fetchLoop_touched_le members st (t, stm, dm) hmem', ?_, ?_, ?_⟩
  · intro ht
    have : st' = markInvalid g stm := by
      rw [hfin]
      unfold galleryFinish
      simp [ht]
    exact ⟨this, by rw [this]; exact List.mem_cons_self g stm.invalid⟩
  · intro ht
    rw [hfin]
    unfold galleryFinish
    simp [Nat.not_le.mpr ht]
  · intro hall
    have := fetchLoop_all_filtered members st (t, stm, dm) hmem' hall
    injection this with h1 h2
    injection h2 with h2 h3
    exact ⟨h1, h2⟩

theorem gallery_exhaustion_witness :
    1 ≤ (["m1"] : List String).length ∧
    ((markInvalid "gal" stM1 : FetchState) = markInvalid "gal" stM1 ∧
      "gal" ∈ (markInvalid "gal" stM1).invalid) :=
  ⟨(gallery_exhaustion envW 1 "gal"
      { image := none, imgur := some ["m1"], reddit := none }
      stW stM1 (markInvalid "gal" stM1) ["m1"] ["m1"] ["m1"] 1 true
      (by decide) rfl (Or.inl rfl) (by decide) (by decide)).1,
   (gallery_exhaustion envW 1 "gal"
      { image := none, imgur := some ["m1"], reddit := none }
      stW stM1 (markInvalid "gal" stM1) ["m1"] ["m1"] ["m1"] 1 true
      (by decide) rfl (Or.inl rfl) (by decide) (by decide)).2.1 rfl⟩

end Redditbg

namespace Redditbg

theorem ratioOk_1600_900_16_9 : ratioOk 1600 900 16 9 := by
  norm_num [ratioOk, aspectRatioEpsilon]

theorem not_ratioOk_1000_10_16_9 : ¬ ratioOk 1000 10 16 9 := by
  norm_num [ratioOk, aspectRatioEpsilon, abs_le]

/-- C6: an image candidate is accepted and persisted by `parse_raw_image`
exactly when it decodes and its width:height ratio is within the fixed
epsilon 1/100 of the screen's ratio (first conjunct); a candidate whose ratio
is out of tolerance is rejected with `InvalidAspectRatio`, so neither the
store nor the accepted counter is touched (second conjunct); consequently,
over any whole `fetch_multiple` run, every newly persisted store entry passed
the ratio check and the accepted counter grew by exactly the number of new
store entries (third conjunct). -/
theorem accepted_images_fit_screen :
    (∀ env url b st st', parseRawImage env url b st = .ok st' →
      ∃ iw ih, b.image = some (iw, ih) ∧ ratioOk iw ih env.sw env.sh ∧
        st' = acceptImage url iw ih st) ∧
    (∀ env url b st iw ih, b.image = some (iw, ih) →
      ¬ ratioOk iw ih env.sw env.sh →
      parseRawImage env url b st = .error (.invalidAspectRatio iw ih env.sw env.sh)) ∧
    (∀ env fuel urls st r, fetchMultiple env fuel urls st = some r →
      ∃ pre, r.2.1.store = pre ++ st.store ∧
        r.2.1.gotten = st.gotten + pre.length ∧
        ∀ e ∈ pre, ratioOk e.2.1 e.2.2 env.sw env.sh) := by
  refine ⟨fun env url b st st' h => parseRawImage_ok h, ?_, ?_⟩
  · intro env url b st iw ih hb hbad
    simp [parseRawImage, hb, hbad]
  · intro env fuel urls st r h
    exact (fetchMultiple_evol h).2.2.2

theorem accepted_images_fit_screen_witness :
    parseRawImage envW "bad" bodyBad stW =
      .error (.invalidAspectRatio 1000 10 16 9) :=
  accepted_images_fit_screen.2.1 envW "bad" bodyBad stW 1000 10 rfl
    not_ratioOk_1000_10_16_9

/-- C7: when the fetched body decodes as an image whose aspect ratio is out
of tolerance, `fetch_one` rejects the reference immediately: it returns the
hard-reject outcome with the url marked invalid and an empty recursive
dispatch trace, without ever consulting the imgur-gallery or reddit-gallery
classifiers (the result does not depend on the body's gallery fields). -/
theorem aspect_ratio_hard_reject (env : Env) (fuel : Nat) (url : String)
    (st : FetchState) (b : Body) (iw ih : Nat)
    (hb : env.body url = some b) (himg : b.image = some (iw, ih))
    (hbad : ¬ ratioOk iw ih env.sw env.sh) :
    fetchOne env (fuel + 1) url st = some (false, markInvalid url st, []) := by
  have hp : parseRawImage env url b st =
      .error (.invalidAspectRatio iw ih env.sw env.sh) := by
    simp [parseRawImage, himg, hbad]
  simp [fetchOne, hb, hp]

theorem aspect_ratio_hard_reject_witness :
    fetchOne envW 1 "bad" stW = some (false, markInvalid "bad" stW, []) :=
  aspect_ratio_hard_reject envW 0 "bad" stW bodyBad 1000 10 (by decide) rfl
    not_ratioOk_1000_10_16_9

/-- C9: the quota is computed as `25 saturating-minus the store count`, so it
is never negative and is zero for any store already holding 25 or more
images; and with `need = 0`, `fetch_toplevel` returns `Ok` immediately with
the state untouched and an empty dispatch trace, for every url stream — not
a single reference is pulled and no fetch is performed. -/
theorem satisfied_store_short_circuits (count : Nat) (st : FetchState)
    (hcount : maxCached ≤ count) (hneed : st.need = 0) :
    computeNeed count = 0 ∧
    ∀ env fuel urls, fetchToplevel env fuel urls st = some (st, []) := by
  constructor
  · unfold computeNeed maxCached
    unfold maxCached at hcount
    omega
  · intro env fuel urls
    simp [fetchToplevel, hneed]

theorem satisfied_store_short_circuits_witness :
    computeNeed 30 = 0 ∧ fetchToplevel envW 1 ["img"] stZ = some (stZ, []) :=
  ⟨(satisfied_store_short_circuits 30 stZ (by decide) rfl).1,
   (satisfied_store_short_circuits 30 stZ (by decide) rfl).2 envW 1 ["img"]⟩

end Redditbg

namespace Redditbg

/-- C4: the listing stream is the four-state machine of `src/reddit.rs`.  When
the `Fetched` buffer drains, the next state is `NeedMore` exactly when a
next-page token was carried forward and `Exhausted` when not (first two
conjuncts); consequently, for the single scenario page whose `after` is null
and whose children hold exactly one non-`over_18` url, the stream yields
exactly `"http://x/a.png"`, then terminates, and an `Exhausted` stream
returns `None` forever after (remaining conjuncts). -/
theorem listing_stream_state_machine :
    (∀ g tok, stepOnce g { next_page_id := some tok, state := .fetched [] } =
      .inl { next_page_id := some tok, state := .needMore }) ∧
    (∀ g, stepOnce g { next_page_id := none, state := .fetched [] } =
      .inl { next_page_id := none, state := .exhausted }) ∧
    pollNext scenarioGetPage 8 Posts.new =
      some (some "http://x/a.png", { next_page_id := none, state := .fetched [] }) ∧
    pollNext scenarioGetPage 8 { next_page_id := none, state := .fetched [] } =
      some (none, { next_page_id := none, state := .exhausted }) ∧
    (∀ g npid fuel, pollNext g (fuel + 1) { next_page_id := npid, state := .exhausted } =
      some (none, { next_page_id := npid, state := .exhausted })) :=
  ⟨fun _ _ => rfl, fun _ => rfl, by decide, by decide, fun _ _ _ => rfl⟩

/-- After every failing try, `with_backoff` behaves the same for every
schedule suffix: if all tries from `n` through `n + schedule.length` fail,
the loop consumes the whole schedule and forwards the final try's error. -/
theorem withBackoffAux_all_fail {E A : Type} (attempts : Nat → Except E A) :
    ∀ (schedule : List Nat) (n : Nat),
      (∀ k, n ≤ k → k ≤ n + schedule.length → ∃ e, attempts k = .error e) →
      withBackoffAux attempts (schedule.length + 1) schedule n =
        some (attempts (n + schedule.length)) := by
  intro schedule
  induction schedule with
  | nil =>
    intro n hfail
    obtain ⟨e, he⟩ := hfail n le_rfl (by simp)
    simp [withBackoffAux, he, BackoffPolicy.handle]
  | cons d rest ih =>
    intro n hfail
    obtain ⟨e, he⟩ := hfail n le_rfl (by omega)
    simp only [List.length_cons, withBackoffAux, he, BackoffPolicy.handle]
    have := ih (n + 1)
      (fun k hk1 hk2 => hfail k (by omega) (by simp only [List.length_cons]; omega))
    have heq : n + 1 + rest.length = n + (rest.length + 1) := by omega
    rw [heq] at this
    exact this

/-- C5: the backoff policy is a pure function of the schedule position, not
of the error kind or attempt index: the retry decision and the remaining
schedule are identical for any two errors and attempt indices (first
conjunct); once the schedule is exhausted, `handle` forwards the triggering
error verbatim (second conjunct); and running `with_backoff` with its
10-step schedule against an operation that keeps failing performs exactly 10
retries and then returns the 11th try's outcome unchanged (third
conjunct). -/
theorem backoff_ignores_error_kind :
    (∀ (E : Type) (schedule : List Nat) (n m : Nat) (e e' : E),
      (BackoffPolicy.handle schedule n e).1.isRetry =
        (BackoffPolicy.handle schedule m e').1.isRetry ∧
      (BackoffPolicy.handle schedule n e).2 = (BackoffPolicy.handle schedule m e').2) ∧
    (∀ (E : Type) (n : Nat) (e : E),
      BackoffPolicy.handle ([] : List Nat) n e = (.forwardError e, [])) ∧
    (∀ (E A : Type) (attempts : Nat → Except E A) (schedule : List Nat),
      schedule.length = backoffSteps →
      (∀ k, k ≤ backoffSteps → ∃ e, attempts k = .error e) →
      withBackoff attempts schedule = some (attempts backoffSteps)) := by
  refine ⟨?_, fun _ _ _ => rfl, ?_⟩
  · intro E schedule n m e e'
    cases schedule <;> exact ⟨rfl, rfl⟩
  · intro E A attempts schedule hlen hfail
    have := withBackoffAux_all_fail attempts schedule 0
      (fun k _ hk2 => hfail k (by omega))
    unfold withBackoff
    rw [this]
    simp [hlen]

theorem backoff_ignores_error_kind_witness :
    withBackoff (fun n => (.error n : Except Nat Unit))
      [1, 1, 1, 1, 1, 1, 1, 1, 1, 1] = some (.error 10) :=
  backoff_ignores_error_kind.2.2 Nat Unit (fun n => .error n)
    [1, 1, 1, 1, 1, 1, 1, 1, 1, 1] rfl (fun k _ => ⟨k, rfl⟩)

end Redditbg

namespace Redditbg

theorem stringMk_data (s : String) : String.mk s.data = s := by
  cases s
  rfl

/-- A newline-free character run followed by an explicit newline is read as
one line (the newline stripped), and reading continues after it. -/
theorem readLinesAux_append_newline (ys : List Char) :
    ∀ (xs acc : List Char), '\n' ∉ xs →
      readLinesAux acc (xs ++ '\n' :: ys) =
        String.mk (acc.reverse ++ xs) :: readLinesAux [] ys := by
  intro xs
  induction xs with
  | nil =>
    intro acc _
    simp [readLinesAux]
  | cons c cs ihc =>
    intro acc hnl
    have hc : c ≠ '\n' := fun h => hnl (h ▸ List.mem_cons_self c cs)
    have hcs : '\n' ∉ cs := fun h => hnl (List.mem_cons_of_mem c h)
    simp only [List.cons_append, readLinesAux, if_neg hc, List.append_eq]
    rw [ihc (c :: acc) hcs]
    simp

/-- A newline-free tail is read as a single line, unless nothing at all
remains to be read. -/
theorem readLinesAux_no_newline :
    ∀ (xs acc : List Char), '\n' ∉ xs →
      readLinesAux acc xs =
        if acc.isEmpty ∧ xs.isEmpty then [] else [String.mk (acc.reverse ++ xs)] := by
  intro xs
  induction xs with
  | nil =>
    intro acc _
    simp [readLinesAux]
  | cons c cs ihc =>
    intro acc hnl
    have hc : c ≠ '\n' := fun h => hnl (h ▸ List.mem_cons_self c cs)
    have hcs : '\n' ∉ cs := fun h => hnl (List.mem_cons_of_mem c h)
    simp only [readLinesAux, if_neg hc]
    rw [ihc (c :: acc) hcs]
    simp

/-- C8 counterexample: the empty string is a newline-free entry, yet a
`PersistentSet` holding exactly it stores as an empty file, which loads back
as the empty set — the stored entry is lost, so the round trip is not exact
for every newline-free ledger. -/
theorem persistent_set_roundtrip_counterexample :
    '\n' ∉ "".data ∧
    persistentLoad (persistentStore [""]) = [] ∧
    ([] : List String) ≠ [""] :=
  ⟨by decide, rfl, by decide⟩

/-- C8 (amended): for every `PersistentSet` whose entries are nonempty and
contain no newline characters, storing it with `store()` and loading the
same file back with `load()` yields exactly the entries that were stored. -/
theorem persistent_set_roundtrip (l : List String)
    (h : ∀ s ∈ l, s ≠ "" ∧ '\n' ∉ s.data) :
    persistentLoad (persistentStore l) = l := by
  induction l with
  | nil => rfl
  | cons s rest ihl =>
    cases rest with
    | nil =>
      obtain ⟨hne, hnl⟩ := h s (List.mem_cons_self s [])
      show readLinesAux [] (joinLines [s]).data = [s]
      have : joinLines [s] = s := rfl
      rw [this, readLinesAux_no_newline s.data [] hnl]
      have hd : s.data.isEmpty = false := by
        cases hsd : s.data with
        | nil => exact absurd (by cases s; simp_all) hne
        | cons a as => rfl
      simp [hd, stringMk_data]
    | cons s' rest' =>
      obtain ⟨hne, hnl⟩ := h s (List.mem_cons_self s (s' :: rest'))
      have hrest : ∀ x ∈ s' :: rest', x ≠ "" ∧ '\n' ∉ x.data :=
        fun x hx => h x (List.mem_cons_of_mem s hx)
      show readLinesAux [] (joinLines (s :: s' :: rest')).data = s :: s' :: rest'
      have hj : joinLines (s :: s' :: rest') = s ++ "\n" ++ joinLines (s' :: rest') := rfl
      have hdata : (s ++ "\n" ++ joinLines (s' :: rest')).data =
          s.data ++ '\n' :: (joinLines (s' :: rest')).data := by
        simp [String.data_append]
      rw [hj, hdata, readLinesAux_append_newline _ s.data [] hnl]
      have hload : readLinesAux [] (joinLines (s' :: rest')).data = s' :: rest' :=
        ihl hrest
      rw [hload]
      simp [stringMk_data]

theorem persistent_set_roundtrip_witness :
    persistentLoad (persistentStore ["a", "bc"]) = ["a", "bc"] :=
  persistent_set_roundtrip ["a", "bc"] (by decide)

end Redditbg

namespace Redditbg

/-- C10: `pick()` deletes more than the image it retires.  An examined store
file that fails to decode is removed from the store as a side effect and the
scan continues (first conjunct); an examined file whose perceptual hash is
already in the `AppliedImages` table is likewise removed and the scan
continues (second conjunct); the file actually picked is itself removed, its
hash recorded, and the files after it are left untouched (third conjunct).
One `pick()` call can therefore shrink the store by several files. -/
theorem pick_removes_examined_failures :
    (∀ applied rest (f : StoreFile), f.decoded = none →
      pick applied (f :: rest) =
        ((pickAux applied rest).1, (pickAux applied rest).2.1,
         f.path :: (pickAux applied rest).2.2.1, (pickAux applied rest).2.2.2)) ∧
    (∀ applied rest (f : StoreFile) (h : Nat), f.decoded = some h → h ∈ applied →
      pick applied (f :: rest) =
        ((pickAux applied rest).1, (pickAux applied rest).2.1,
         f.path :: (pickAux applied rest).2.2.1, (pickAux applied rest).2.2.2)) ∧
    (∀ applied rest (f : StoreFile) (h : Nat), f.decoded = some h → h ∉ applied →
      pick applied (f :: rest) = (some (f.path, h), rest, [f.path], h :: applied)) := by
  refine ⟨?_, ?_, ?_⟩
  · intro applied rest f hdec
    simp [pick, pickAux, hdec]
  · intro applied rest f h hdec hmem
    simp [pick, pickAux, hdec, hmem]
  · intro applied rest f h hdec hmem
    simp [pick, pickAux, hdec, hmem]

theorem pick_removes_examined_failures_witness :
    pick [5] [⟨"f1", none⟩, ⟨"f2", some 5⟩, ⟨"f3", some 7⟩, ⟨"f4", some 9⟩] =
      ((pickAux [5] [⟨"f2", some 5⟩, ⟨"f3", some 7⟩, ⟨"f4", some 9⟩]).1,
       (pickAux [5] [⟨"f2", some 5⟩, ⟨"f3", some 7⟩, ⟨"f4", some 9⟩]).2.1,
       "f1" :: (pickAux [5] [⟨"f2", some 5⟩, ⟨"f3", some 7⟩, ⟨"f4", some 9⟩]).2.2.1,
       (pickAux [5] [⟨"f2", some 5⟩, ⟨"f3", some 7⟩, ⟨"f4", some 9⟩]).2.2.2) ∧
    pick [5] [⟨"f3", some 7⟩, ⟨"f4", some 9⟩] =
      (some ("f3", 7), [⟨"f4", some 9⟩], ["f3"], [7, 5]) ∧
    pick [5] [⟨"f1", none⟩, ⟨"f2", some 5⟩, ⟨"f3", some 7⟩, ⟨"f4", some 9⟩] =
      (some ("f3", 7), [⟨"f4", some 9⟩], ["f1", "f2", "f3"], [7, 5]) :=
  ⟨pick_removes_examined_failures.1 [5] [⟨"f2", some 5⟩, ⟨"f3", some 7⟩, ⟨"f4", some 9⟩]
      ⟨"f1", none⟩ rfl,
   pick_removes_examined_failures.2.2 [5] [⟨"f4", some 9⟩] ⟨"f3", some 7⟩ 7 rfl
      (by decide),
   by decide⟩

end Redditbg
